import Mathlib

/-
Verification of the `TransformMatrix` component
(src/src/gameobjects/components/TransformMatrix.js).

The matrix stores six scalars in a flat buffer:
  matrix[0] = a, matrix[1] = b, matrix[2] = c,
  matrix[3] = d, matrix[4] = tx (alias e), matrix[5] = ty (alias f),
representing | a c tx | / | b d ty | / | 0 0 1 |.
Slots 6..8 of the Float32Array are the constant bottom row and are never
read or written by any method, so the embedding keeps only the six live
scalars.

JS numbers are modelled by an exact field: ℚ for the trig-free methods
(so everything is computable and decidable) and ℝ where `Math.cos`,
`Math.sin`, `Math.sqrt`, `Math.acos` or `Math.atan` appear.  For the
claim about division by zero the IEEE special values are modelled
explicitly by the type `JSVal` below.
-/

namespace Phaser

/-- The six live scalars of a TransformMatrix, in buffer order
`a, b, c, d, tx, ty` (constructor defaults `1,0,0,1,0,0`). -/
@[ext]
structure TM (α : Type) where
  a : α
  b : α
  c : α
  d : α
  tx : α
  ty : α
deriving DecidableEq, Repr

/-- Accessor `e` is an alias of slot 4 (`tx`), per the source. -/
def TM.e {α : Type} (m : TM α) : α := m.tx

/-- Accessor `f` is an alias of slot 5 (`ty`), per the source. -/
def TM.f {α : Type} (m : TM α) : α := m.ty

/-- A fresh `new TransformMatrix()`: the constructor defaults
`(1, 0, 0, 1, 0, 0)`. -/
def identityTM : TM ℚ := ⟨1, 0, 0, 1, 0, 0⟩

/-- A point-like value with mutable `x`/`y` fields (`Vector2`-shaped). -/
@[ext]
structure Pt where
  x : ℚ
  y : ℚ
deriving DecidableEq, Repr

/-- `translate(x, y)` (source lines 370-377):
`matrix[4] = matrix[0]*x + matrix[2]*y + matrix[4]`,
`matrix[5] = matrix[1]*x + matrix[3]*y + matrix[5]`;
slots 0..3 are untouched. -/
def translate (m : TM ℚ) (x y : ℚ) : TM ℚ :=
  { m with tx := m.a * x + m.c * y + m.tx, ty := m.b * x + m.d * y + m.ty }

/-- The six values `multiply` computes from the entry snapshot of the
local matrix `L` (`this`) and the source matrix `M` (`rhs`)
(source lines 483-488). -/
def multiplyDest (L M : TM ℚ) : TM ℚ :=
  ⟨M.a * L.a + M.b * L.c,
   M.a * L.b + M.b * L.d,
   M.c * L.a + M.d * L.c,
   M.c * L.b + M.d * L.d,
   M.tx * L.a + M.ty * L.c + L.tx,
   M.tx * L.b + M.ty * L.d + L.ty⟩

/-- Object references for the heap model of `multiply`: the call can
involve up to three distinct objects (`this`, `rhs`, `out`), any of
which may alias. -/
abbrev Ref := Fin 3

/-- A heap assigning a matrix state to each reference. -/
abbrev Heap := Ref → TM ℚ

/-- Write field `a` of the object at reference `r`. -/
def writeA (h : Heap) (r : Ref) (v : ℚ) : Heap :=
  fun s => if s = r then { h s with a := v } else h s

/-- Write field `b` of the object at reference `r`. -/
def writeB (h : Heap) (r : Ref) (v : ℚ) : Heap :=
  fun s => if s = r then { h s with b := v } else h s

/-- Write field `c` of the object at reference `r`. -/
def writeC (h : Heap) (r : Ref) (v : ℚ) : Heap :=
  fun s => if s = r then { h s with c := v } else h s

/-- Write field `d` of the object at reference `r`. -/
def writeD (h : Heap) (r : Ref) (v : ℚ) : Heap :=
  fun s => if s = r then { h s with d := v } else h s

/-- Write field `tx` (accessor `e`) of the object at reference `r`. -/
def writeE (h : Heap) (r : Ref) (v : ℚ) : Heap :=
  fun s => if s = r then { h s with tx := v } else h s

/-- Write field `ty` (accessor `f`) of the object at reference `r`. -/
def writeF (h : Heap) (r : Ref) (v : ℚ) : Heap :=
  fun s => if s = r then { h s with ty := v } else h s

/-- `multiply(rhs, out)` (source lines 463-491) as a heap transformer:
the twelve locals are read from `this` and `rhs` at entry, the
destination is `out` when supplied and `this` otherwise, and the six
setter writes happen in source order.  `thisR`, `rhsR` and the optional
out reference may alias each other freely, exactly as in JS. -/
def multiplyHeap (h : Heap) (thisR rhsR : Ref) (out : Option Ref) : Heap :=
  let localA := (h thisR).a
  let localB := (h thisR).b
  let localC := (h thisR).c
  let localD := (h thisR).d
  let localE := (h thisR).tx
  let localF := (h thisR).ty
  let sourceA := (h rhsR).a
  let sourceB := (h rhsR).b
  let sourceC := (h rhsR).c
  let sourceD := (h rhsR).d
  let sourceE := (h rhsR).tx
  let sourceF := (h rhsR).ty
  let dest := out.getD thisR
  writeF
    (writeE
      (writeD
        (writeC
          (writeB
            (writeA h dest (sourceA * localA + sourceB * localC))
            dest (sourceA * localB + sourceB * localD))
          dest (sourceC * localA + sourceD * localC))
        dest (sourceC * localB + sourceD * localD))
      dest (sourceE * localA + sourceF * localC + localE))
    dest (sourceE * localB + sourceF * localD + localF)

/-- In-place `multiply(rhs)` on plain values (the `out === undefined`
shape with `this` and `rhs` distinct objects). -/
def multiplyInPlace (m rhs : TM ℚ) : TM ℚ := multiplyDest m rhs

/-- `multiplyWithOffset(src, offsetX, offsetY)` (source lines 508-537). -/
def multiplyWithOffset (m src : TM ℚ) (offsetX offsetY : ℚ) : TM ℚ :=
  let pse := offsetX * m.a + offsetY * m.c + m.tx
  let psf := offsetX * m.b + offsetY * m.d + m.ty
  ⟨src.a * m.a + src.b * m.c,
   src.a * m.b + src.b * m.d,
   src.c * m.a + src.d * m.c,
   src.c * m.b + src.d * m.d,
   src.tx * m.a + src.ty * m.c + pse,
   src.tx * m.b + src.ty * m.d + psf⟩

/-- `transformPoint(x, y)` (source lines 586-602), fresh-point shape:
`point.x = x*a + y*c + tx`, `point.y = x*b + y*d + ty`. -/
def transformPoint (m : TM ℚ) (x y : ℚ) : Pt :=
  ⟨x * m.a + y * m.c + m.tx, x * m.b + y * m.d + m.ty⟩

/-- `transformPoint(x, y, point)` as a call on the pair
(matrix state, point state): the body reads the six scalars and writes
only `point.x` and `point.y`; the matrix receives no write. -/
def transformPointCall (m : TM ℚ) (x y : ℚ) (point : Pt) : TM ℚ × Pt :=
  (m, { point with x := x * m.a + y * m.c + m.tx, y := x * m.b + y * m.d + m.ty })

/-- `applyInverse(x, y)` (source lines 902-920), fresh-output shape:
`id = 1 / ((a*d) + (c*(-b)))`,
`output.x = d*id*x + (-c)*id*y + ((ty*c - tx*d))*id`,
`output.y = a*id*y + (-b)*id*x + ((-ty*a + tx*b))*id`. -/
def applyInverse (m : TM ℚ) (x y : ℚ) : Pt :=
  let i := 1 / (m.a * m.d + m.c * (-m.b))
  ⟨m.d * i * x + -m.c * i * y + (m.ty * m.c - m.tx * m.d) * i,
   m.a * i * y + -m.b * i * x + (-(m.ty * m.a) + m.tx * m.b) * i⟩

/-- `applyInverse(x, y, output)` as a call on the pair
(matrix state, output state): the body reads the six scalars and writes
only `output.x` and `output.y`; the matrix receives no write. -/
def applyInverseCall (m : TM ℚ) (x y : ℚ) (output : Pt) : TM ℚ × Pt :=
  (m,
   { output with
      x := (applyInverse m x y).x,
      y := (applyInverse m x y).y })

/-- `copyToArray()` (source lines 731-747), fresh-array shape: returns
`[matrix[0], matrix[1], matrix[2], matrix[3], matrix[4], matrix[5]]`. -/
def copyToArray (m : TM ℚ) : List ℚ :=
  [m.a, m.b, m.c, m.d, m.tx, m.ty]

/-- `copyFromArray(src)` (source lines 668-679):
`matrix[i] = src[i]` for `i = 0..5`.  All six slots are overwritten, so
the result does not depend on the receiver.  Indexing uses `getD`;
this is faithful for arrays holding at least six elements, which is the
only shape the round-trip claim exercises. -/
def copyFromArray (_m : TM ℚ) (src : List ℚ) : TM ℚ :=
  ⟨src.getD 0 0, src.getD 1 0, src.getD 2 0,
   src.getD 3 0, src.getD 4 0, src.getD 5 0⟩

/-- A JS number outcome distinguishing the IEEE special values: a
finite value (finite arithmetic is modelled exactly), the two
infinities, and NaN. -/
inductive JSVal where
  | num : ℚ → JSVal
  | pinf : JSVal
  | ninf : JSVal
  | nan : JSVal
deriving DecidableEq, Repr

/-- Whether a `JSVal` is a finite number. -/
def JSVal.isFinite : JSVal → Bool
  | .num _ => true
  | _ => false

/-- IEEE multiplication on `JSVal`: NaN absorbs; an infinity times zero
is NaN, times a nonzero finite value or an infinity is a signed
infinity. -/
def jmul : JSVal → JSVal → JSVal
  | .nan, _ => .nan
  | _, .nan => .nan
  | .num x, .num y => .num (x * y)
  | .num x, .pinf => if x = 0 then .nan else if 0 < x then .pinf else .ninf
  | .num x, .ninf => if x = 0 then .nan else if 0 < x then .ninf else .pinf
  | .pinf, .num y => if y = 0 then .nan else if 0 < y then .pinf else .ninf
  | .ninf, .num y => if y = 0 then .nan else if 0 < y then .ninf else .pinf
  | .pinf, .pinf => .pinf
  | .pinf, .ninf => .ninf
  | .ninf, .pinf => .ninf
  | .ninf, .ninf => .pinf

/-- IEEE addition on `JSVal`: NaN absorbs; opposite infinities give
NaN; an infinity plus a finite value keeps its sign. -/
def jadd : JSVal → JSVal → JSVal
  | .nan, _ => .nan
  | _, .nan => .nan
  | .num x, .num y => .num (x + y)
  | .num _, .pinf => .pinf
  | .num _, .ninf => .ninf
  | .pinf, .num _ => .pinf
  | .ninf, .num _ => .ninf
  | .pinf, .pinf => .pinf
  | .pinf, .ninf => .nan
  | .ninf, .pinf => .nan
  | .ninf, .ninf => .ninf

/-- IEEE division of two finite values: dividing by zero yields NaN
when the numerator is zero and a signed infinity otherwise. -/
def jdiv (x y : ℚ) : JSVal :=
  if y = 0 then (if x = 0 then .nan else if 0 < x then .pinf else .ninf)
  else .num (x / y)

/-- `invert()` (source lines 612-632) with IEEE value semantics: each
slot receives a quotient with denominator `n = a*d - b*c`; the list is
the six written slots in buffer order. -/
def invertV (m : TM ℚ) : List JSVal :=
  let n := m.a * m.d - m.b * m.c
  [jdiv m.d n,
   jdiv (-m.b) n,
   jdiv (-m.c) n,
   jdiv m.a n,
   jdiv (m.c * m.ty - m.d * m.tx) n,
   jdiv (-(m.a * m.ty - m.b * m.tx)) n]

/-- `applyInverse(x, y)` (source lines 902-920) with IEEE value
semantics: `id = 1 / ((a*d) + (c*(-b)))` and the two outputs combine
`id` with finite values by IEEE multiplication and addition, in the
source's left-to-right association. -/
def applyInverseV (m : TM ℚ) (x y : ℚ) : JSVal × JSVal :=
  let i := jdiv 1 (m.a * m.d + m.c * (-m.b))
  (jadd
    (jadd (jmul (jmul (.num m.d) i) (.num x))
          (jmul (jmul (.num (-m.c)) i) (.num y)))
    (jmul (.num (m.ty * m.c - m.tx * m.d)) i),
   jadd
    (jadd (jmul (jmul (.num m.a) i) (.num y))
          (jmul (jmul (.num (-m.b)) i) (.num x)))
    (jmul (.num (-(m.ty * m.a) + m.tx * m.b)) i))

/-- The `scaleX` accessor (source lines 284-290):
`Math.sqrt(a*a + b*b)`. -/
noncomputable def TM.scaleX (m : TM ℝ) : ℝ := Real.sqrt (m.a * m.a + m.b * m.b)

/-- The `scaleY` accessor (source lines 300-306):
`Math.sqrt(c*c + d*d)`. -/
noncomputable def TM.scaleY (m : TM ℝ) : ℝ := Real.sqrt (m.c * m.c + m.d * m.d)

/-- Modelled from the spec: `MATH_CONST.TAU` comes from `math/const.js`,
which is not under `src/`.  The spec describes `rotationNormalized` as
resolving the rotation into `[0, 2π)`, so the constant is taken as the
full turn `2π`. -/
noncomputable def TAU : ℝ := 2 * Real.pi

open Classical in
/-- The `rotationNormalized` accessor (source lines 249-274): branches
on the truthiness of `a || b`, then `c || d`; JS truthiness of a number
is being nonzero. -/
noncomputable def rotationNormalized (m : TM ℝ) : ℝ :=
  if m.a ≠ 0 ∨ m.b ≠ 0 then
    (if 0 < m.b then Real.arccos (m.a / m.scaleX)
     else -Real.arccos (m.a / m.scaleX))
  else if m.c ≠ 0 ∨ m.d ≠ 0 then
    TAU - (if 0 < m.d then Real.arccos (-m.c / m.scaleY)
           else -Real.arccos (m.c / m.scaleY))
  else 0

/-- `applyITRS(x, y, rotation, scaleX, scaleY, skewX, skewY)` (source
lines 862-885): all six slots are overwritten, so the result does not
depend on the receiver. -/
noncomputable def applyITRS (_m : TM ℝ)
    (x y rotation scaleX scaleY skewX skewY : ℝ) : TM ℝ :=
  ⟨Real.cos (rotation - skewY) * scaleX,
   Real.sin (rotation - skewY) * scaleX,
   -Real.sin (rotation + skewX) * scaleY,
   Real.cos (rotation + skewX) * scaleY,
   x, y⟩

/-- `applyITRS` called with `skewX` and `skewY` omitted: the source
defaults both to `0` (lines 863-864). -/
noncomputable def applyITRSDefault (m : TM ℝ)
    (x y rotation scaleX scaleY : ℝ) : TM ℝ :=
  applyITRS m x y rotation scaleX scaleY 0 0

/-- The `decomposedMatrix` record.  In JS it is a plain object; the
`skewX`/`skewY` entries do not exist until some call adds them, so they
are modelled as `Option ℝ` with `none` for a key that is absent
(`undefined`). -/
@[ext]
structure Decomp where
  translateX : ℝ
  translateY : ℝ
  scaleX : ℝ
  scaleY : ℝ
  rotation : ℝ
  skewX : Option ℝ
  skewY : Option ℝ

/-- The `decomposedMatrix` object built by the constructor (source
lines 63-69): five numeric keys; `skewX` and `skewY` are absent. -/
def initialDecomposed : Decomp := ⟨0, 0, 1, 1, 0, none, none⟩

open Classical in
/-- `decomposeMatrix()` (source lines 783-845) as a function of the
matrix and the previous `decomposedMatrix` record.  Source line 807
sets `skewX = 0` and line 808 sets `skewX = 0` a second time; no line
resets `skewY`, so outside the `(c || d)` branch `skewY` keeps whatever
the record held before the call. -/
noncomputable def decomposeMatrix (m : TM ℝ) (prev : Decomp) : Decomp :=
  let a := m.a
  let b := m.b
  let c := m.c
  let d := m.d
  let determ := a * d - b * c
  let scaleX2 := a * a + b * b
  let scaleY2 := c * c + d * d
  let base : Decomp :=
    { prev with
        translateX := m.tx, translateY := m.ty,
        scaleX := 1, scaleY := 1, rotation := 0,
        skewX := some 0 }
  if a ≠ 0 ∨ b ≠ 0 then
    let sX := Real.sqrt scaleX2
    { base with
        rotation := if 0 < b then Real.arccos (a / sX) else -Real.arccos (a / sX),
        scaleX := sX,
        scaleY := determ / sX,
        skewX := some (Real.arctan ((a * c + b * d) / scaleX2)) }
  else if c ≠ 0 ∨ d ≠ 0 then
    let sY := Real.sqrt scaleY2
    { base with
        rotation := Real.pi * 0.5 -
          (if 0 < d then Real.arccos (-c / sY) else -Real.arccos (c / sY)),
        scaleX := determ / sY,
        scaleY := sY,
        skewY := some (Real.arctan ((a * c + b * d) / scaleY2)) }
  else
    { base with rotation := 0, scaleX := 0, scaleY := 0 }

/-- Concrete three-object heap used to instantiate theorems with
hypotheses. -/
def exHeap : Heap :=
  fun r => if r = 0 then ⟨1, 2, 3, 4, 5, 6⟩
           else if r = 1 then ⟨7, 8, 9, 10, 11, 12⟩
           else ⟨0, 1, 1, 0, 2, 3⟩

theorem multiplyHeap_dest (h : Heap) (tR rR : Ref) (out : Option Ref) :
    multiplyHeap h tR rR out (out.getD tR) = multiplyDest (h tR) (h rR) := by
  simp [multiplyHeap, writeA, writeB, writeC, writeD, writeE, writeF,
    multiplyDest]

theorem multiplyHeap_other (h : Heap) (tR rR : Ref) (out : Option Ref)
    (s : Ref) (hs : s ≠ out.getD tR) :
    multiplyHeap h tR rR out s = h s := by
  simp [multiplyHeap, writeA, writeB, writeC, writeD, writeE, writeF, hs]

/-- Claim C1: `multiply(rhs, out)` writes into the destination (the
`out` object when supplied, else `this`) exactly the six values
`a' = rhs.a*a + rhs.b*c`, `b' = rhs.a*b + rhs.b*d`,
`c' = rhs.c*a + rhs.d*c`, `d' = rhs.c*b + rhs.d*d`,
`e' = rhs.e*a + rhs.f*c + e`, `f' = rhs.e*b + rhs.f*d + f`, where
`a..f` are the scalars of `this` read at call entry.  The references
`thisR`, `rhsR` and the optional out reference are unconstrained, so
the equations hold for the in-place call and under any aliasing,
including `rhs` being the same instance as `this`. -/
theorem multiply_entry_formulas :
    ∀ (h : Heap) (thisR rhsR : Ref) (out : Option Ref),
    (multiplyHeap h thisR rhsR out (out.getD thisR)).a
        = (h rhsR).a * (h thisR).a + (h rhsR).b * (h thisR).c ∧
    (multiplyHeap h thisR rhsR out (out.getD thisR)).b
        = (h rhsR).a * (h thisR).b + (h rhsR).b * (h thisR).d ∧
    (multiplyHeap h thisR rhsR out (out.getD thisR)).c
        = (h rhsR).c * (h thisR).a + (h rhsR).d * (h thisR).c ∧
    (multiplyHeap h thisR rhsR out (out.getD thisR)).d
        = (h rhsR).c * (h thisR).b + (h rhsR).d * (h thisR).d ∧
    (multiplyHeap h thisR rhsR out (out.getD thisR)).e
        = (h rhsR).e * (h thisR).a + (h rhsR).f * (h thisR).c + (h thisR).e ∧
    (multiplyHeap h thisR rhsR out (out.getD thisR)).f
        = (h rhsR).e * (h thisR).b + (h rhsR).f * (h thisR).d + (h thisR).f := by
  intro h thisR rhsR out
  rw [multiplyHeap_dest]
  exact ⟨rfl, rfl, rfl, rfl, rfl, rfl⟩

/-- Claim C3: `translate(x, y)` sets `tx' = a*x + c*y + tx` and
`ty' = b*x + d*y + ty`, leaves `a, b, c, d` unchanged, and from the
identity `translate(5,0)` then `translate(0,3)` yields
`tx = 5`, `ty = 3`. -/
theorem translate_formulas :
    ∀ (m : TM ℚ) (x y : ℚ),
    (translate m x y).tx = m.a * x + m.c * y + m.tx ∧
    (translate m x y).ty = m.b * x + m.d * y + m.ty ∧
    (translate m x y).a = m.a ∧
    (translate m x y).b = m.b ∧
    (translate m x y).c = m.c ∧
    (translate m x y).d = m.d ∧
    (translate (translate identityTM 5 0) 0 3).tx = 5 ∧
    (translate (translate identityTM 5 0) 0 3).ty = 3 := by
  intro m x y
  refine ⟨rfl, rfl, rfl, rfl, rfl, rfl, ?_, ?_⟩ <;>
    norm_num [translate, identityTM]

/-- Claim C8: `copyToArray()` produces the six scalars in the exact
order `[a, b, c, d, e, f]`, and `copyFromArray` on a fresh instance
applied to that array reproduces the original six scalars exactly. -/
theorem array_round_trip :
    ∀ (m : TM ℚ),
    copyToArray m = [m.a, m.b, m.c, m.d, m.e, m.f] ∧
    copyFromArray identityTM (copyToArray m) = m := by
  intro m
  cases m
  exact ⟨rfl, rfl⟩

/-- Claim C10: `multiplyWithOffset(src, offsetX, offsetY)` produces the
same state as `translate(offsetX, offsetY)` followed by an in-place
`multiply(src)` from the same starting state. -/
theorem multiplyWithOffset_refines :
    ∀ (m src : TM ℚ) (offsetX offsetY : ℚ),
    multiplyWithOffset m src offsetX offsetY
      = multiplyInPlace (translate m offsetX offsetY) src := by
  intro m src offsetX offsetY
  ext <;>
    simp [multiplyWithOffset, multiplyInPlace, multiplyDest, translate] <;>
    ring

/-- Claim C2: for every matrix with nonzero determinant `a*d - b*c`
and every point `(x, y)`, `applyInverse` applied to the output of
`transformPoint(x, y)` reconstructs `(x, y)` (exactly, in the exact
arithmetic model, hence within floating-point tolerance), and neither
call writes to the matrix's six scalars. -/
theorem inverse_round_trip :
    ∀ (m : TM ℚ) (x y : ℚ) (p : Pt), m.a * m.d - m.b * m.c ≠ 0 →
    applyInverse m (transformPoint m x y).x (transformPoint m x y).y
        = ⟨x, y⟩ ∧
    (transformPointCall m x y p).1 = m ∧
    (applyInverseCall m x y p).1 = m := by
  intro m x y p hdet
  have hdet2 : m.a * m.d + m.c * (-m.b) ≠ 0 := by
    intro h
    exact hdet (by linarith [h])
  have hdet3 : m.d * m.a - m.c * m.b ≠ 0 := by
    intro h
    exact hdet (by linarith [h])
  refine ⟨?_, rfl, rfl⟩
  unfold applyInverse transformPoint
  ext
  · show m.d * (1 / (m.a * m.d + m.c * (-m.b))) * (x * m.a + y * m.c + m.tx)
        + -m.c * (1 / (m.a * m.d + m.c * (-m.b))) * (x * m.b + y * m.d + m.ty)
        + (m.ty * m.c - m.tx * m.d) * (1 / (m.a * m.d + m.c * (-m.b))) = x
    have h1 : m.d * (1 / (m.a * m.d + m.c * (-m.b))) * (x * m.a + y * m.c + m.tx)
        + -m.c * (1 / (m.a * m.d + m.c * (-m.b))) * (x * m.b + y * m.d + m.ty)
        + (m.ty * m.c - m.tx * m.d) * (1 / (m.a * m.d + m.c * (-m.b)))
        = x * ((m.a * m.d + m.c * (-m.b))
            * (1 / (m.a * m.d + m.c * (-m.b)))) := by
      ring
    rw [h1, one_div, mul_inv_cancel₀ hdet2, mul_one]
  · show m.a * (1 / (m.a * m.d + m.c * (-m.b))) * (x * m.b + y * m.d + m.ty)
        + -m.b * (1 / (m.a * m.d + m.c * (-m.b))) * (x * m.a + y * m.c + m.tx)
        + (-(m.ty * m.a) + m.tx * m.b) * (1 / (m.a * m.d + m.c * (-m.b))) = y
    have h2 : m.a * (1 / (m.a * m.d + m.c * (-m.b))) * (x * m.b + y * m.d + m.ty)
        + -m.b * (1 / (m.a * m.d + m.c * (-m.b))) * (x * m.a + y * m.c + m.tx)
        + (-(m.ty * m.a) + m.tx * m.b) * (1 / (m.a * m.d + m.c * (-m.b)))
        = y * ((m.a * m.d + m.c * (-m.b))
            * (1 / (m.a * m.d + m.c * (-m.b)))) := by
      ring
    rw [h2, one_div, mul_inv_cancel₀ hdet2, mul_one]

/-- Witness for C2 at the matrix `(2, 1, 1, 1, 5, 7)` (determinant 1)
and the point `(3, -4)`. -/
theorem inverse_round_trip_witness :
    ((2 : ℚ) * 1 - 1 * 1 ≠ 0) ∧
    applyInverse ⟨2, 1, 1, 1, 5, 7⟩
        (transformPoint ⟨2, 1, 1, 1, 5, 7⟩ 3 (-4)).x
        (transformPoint ⟨2, 1, 1, 1, 5, 7⟩ 3 (-4)).y = ⟨3, -4⟩ :=
  ⟨by norm_num,
   (inverse_round_trip ⟨2, 1, 1, 1, 5, 7⟩ 3 (-4) ⟨0, 0⟩ (by norm_num)).1⟩

/-- Claim C9: when `multiply(rhs, out)` is called with an `out` object
distinct from `this`, the six scalars of `this` are unchanged by the
call; and `applyInverse(x, y, output)` never writes to the matrix's six
scalars. -/
theorem multiply_out_preserves_this :
    (∀ (h : Heap) (thisR rhsR outR : Ref), outR ≠ thisR →
      multiplyHeap h thisR rhsR (some outR) thisR = h thisR) ∧
    (∀ (m : TM ℚ) (x y : ℚ) (output : Pt),
      (applyInverseCall m x y output).1 = m) := by
  constructor
  · intro h thisR rhsR outR hne
    exact multiplyHeap_other h thisR rhsR (some outR) thisR
      (by simpa using fun hcontra => hne hcontra.symm)
  · intro m x y output
    rfl

/-- Witness for C9 on the concrete heap `exHeap` with `this` at slot 0,
`rhs` at slot 2 and `out` at slot 1. -/
theorem multiply_out_preserves_this_witness :
    ((1 : Ref) ≠ 0) ∧ multiplyHeap exHeap 0 2 (some 1) 0 = exHeap 0 :=
  ⟨by decide, multiply_out_preserves_this.1 exHeap 0 2 1 (by decide)⟩

theorem jmul_left_not_finite (u v : JSVal) (h : u.isFinite = false) :
    (jmul u v).isFinite = false := by
  cases u <;> cases v <;>
    simp_all [jmul, JSVal.isFinite] <;> split_ifs <;> rfl

theorem jmul_right_not_finite (u v : JSVal) (h : v.isFinite = false) :
    (jmul u v).isFinite = false := by
  cases u <;> cases v <;>
    simp_all [jmul, JSVal.isFinite] <;> split_ifs <;> rfl

theorem jadd_left_not_finite (u v : JSVal) (h : u.isFinite = false) :
    (jadd u v).isFinite = false := by
  cases u <;> cases v <;> simp_all [jadd, JSVal.isFinite]

theorem jdiv_den_zero_not_finite (x : ℚ) : (jdiv x 0).isFinite = false := by
  rw [jdiv, if_pos rfl]
  split_ifs <;> rfl

/-- Claim C5: with determinant `a*d - b*c` exactly `0`, `invert()` and
`applyInverse()` proceed without a distinguishable error; under IEEE
semantics every slot written by `invert()` and both coordinates
produced by `applyInverse()` are non-finite (infinite or NaN), never a
silently valid-looking finite value. -/
theorem degenerate_inverse_not_finite :
    ∀ (m : TM ℚ), m.a * m.d - m.b * m.c = 0 →
    (∀ v ∈ invertV m, v.isFinite = false) ∧
    (∀ x y : ℚ, (applyInverseV m x y).1.isFinite = false ∧
                (applyInverseV m x y).2.isFinite = false) := by
  intro m hdet
  have hdet2 : m.a * m.d + m.c * (-m.b) = 0 := by linarith [hdet]
  have hinv : (jdiv 1 (m.a * m.d + m.c * (-m.b))).isFinite = false := by
    rw [hdet2]
    exact jdiv_den_zero_not_finite 1
  constructor
  · intro v hv
    have hv6 : v = jdiv m.d 0 ∨ v = jdiv (-m.b) 0 ∨ v = jdiv (-m.c) 0 ∨
        v = jdiv m.a 0 ∨ v = jdiv (m.c * m.ty - m.d * m.tx) 0 ∨
        v = jdiv (-(m.a * m.ty - m.b * m.tx)) 0 := by
      simpa [invertV, hdet] using hv
    rcases hv6 with h | h | h | h | h | h <;>
      (rw [h]; exact jdiv_den_zero_not_finite _)
  · intro x y
    constructor
    · show (jadd
        (jadd (jmul (jmul (.num m.d) (jdiv 1 (m.a * m.d + m.c * (-m.b)))) (.num x))
              (jmul (jmul (.num (-m.c)) (jdiv 1 (m.a * m.d + m.c * (-m.b)))) (.num y)))
        (jmul (.num (m.ty * m.c - m.tx * m.d))
          (jdiv 1 (m.a * m.d + m.c * (-m.b))))).isFinite = false
      exact jadd_left_not_finite _ _
        (jadd_left_not_finite _ _
          (jmul_left_not_finite _ _ (jmul_right_not_finite _ _ hinv)))
    · show (jadd
        (jadd (jmul (jmul (.num m.a) (jdiv 1 (m.a * m.d + m.c * (-m.b)))) (.num y))
              (jmul (jmul (.num (-m.b)) (jdiv 1 (m.a * m.d + m.c * (-m.b)))) (.num x)))
        (jmul (.num (-(m.ty * m.a) + m.tx * m.b))
          (jdiv 1 (m.a * m.d + m.c * (-m.b))))).isFinite = false
      exact jadd_left_not_finite _ _
        (jadd_left_not_finite _ _
          (jmul_left_not_finite _ _ (jmul_right_not_finite _ _ hinv)))

/-- Witness for C5 at the all-zero linear part `a = b = c = d = 0`
(the spec's degenerate example), evaluating `applyInverse` at
`(3, 4)`. -/
theorem degenerate_inverse_not_finite_witness :
    ((0 : ℚ) * 0 - 0 * 0 = 0) ∧
    (applyInverseV ⟨0, 0, 0, 0, 0, 0⟩ 3 4).1.isFinite = false :=
  ⟨by norm_num,
   ((degenerate_inverse_not_finite ⟨0, 0, 0, 0, 0, 0⟩ (by norm_num)).2 3 4).1⟩

/-- Claim C4: `applyITRS(x, y, rotation, scaleX, scaleY, skewX, skewY)`
sets exactly `tx = x`, `ty = y`, `a = cos(rotation - skewY)*scaleX`,
`b = sin(rotation - skewY)*scaleX`, `c = -sin(rotation + skewX)*scaleY`,
`d = cos(rotation + skewX)*scaleY`, and the call with the skews omitted
equals the call with both skews `0`. -/
theorem applyITRS_formulas :
    ∀ (m : TM ℝ) (x y rotation scaleX scaleY skewX skewY : ℝ),
    (applyITRS m x y rotation scaleX scaleY skewX skewY).tx = x ∧
    (applyITRS m x y rotation scaleX scaleY skewX skewY).ty = y ∧
    (applyITRS m x y rotation scaleX scaleY skewX skewY).a
        = Real.cos (rotation - skewY) * scaleX ∧
    (applyITRS m x y rotation scaleX scaleY skewX skewY).b
        = Real.sin (rotation - skewY) * scaleX ∧
    (applyITRS m x y rotation scaleX scaleY skewX skewY).c
        = -Real.sin (rotation + skewX) * scaleY ∧
    (applyITRS m x y rotation scaleX scaleY skewX skewY).d
        = Real.cos (rotation + skewX) * scaleY ∧
    applyITRSDefault m x y rotation scaleX scaleY
        = applyITRS m x y rotation scaleX scaleY 0 0 := by
  intro m x y rotation scaleX scaleY skewX skewY
  exact ⟨rfl, rfl, rfl, rfl, rfl, rfl, rfl⟩

/-- Counterexample to claim C6: the matrix `(0, -1, 0, 0, 0, 0)` takes
the `(a || b)` branch with `b ≤ 0` and `rotationNormalized` evaluates
to `-π/2`, which is negative and hence outside `[0, 2π)`. -/
theorem rotationNormalized_negative_counterexample :
    rotationNormalized ⟨0, -1, 0, 0, 0, 0⟩ = -(Real.pi / 2) ∧
    ¬ (0 ≤ rotationNormalized ⟨0, -1, 0, 0, 0, 0⟩) := by
  have hval : rotationNormalized ⟨0, -1, 0, 0, 0, 0⟩ = -(Real.pi / 2) := by
    rw [rotationNormalized]
    rw [if_pos (Or.inr (by norm_num))]
    rw [if_neg (by norm_num)]
    have hs : TM.scaleX (⟨0, -1, 0, 0, 0, 0⟩ : TM ℝ) = 1 := by
      rw [TM.scaleX]
      norm_num
    rw [hs]
    norm_num [Real.arccos_zero]
  refine ⟨hval, ?_⟩
  rw [hval]
  have hpi := Real.pi_pos
  intro hcontra
  linarith

/-- Claim C6 amended: `rotationNormalized` is not always in `[0, 2π)`
(the `(a || b)` branch returns `-arccos(a/scaleX) ∈ [-π, 0]` when
`b ≤ 0`, and with `TAU = 2π` the `(c || d)` branch can exceed `2π`);
instead the value always lies in `[-π, 3π]`, and it is exactly `0`
when `a`, `b`, `c` and `d` are all zero. -/
theorem rotationNormalized_range_amended :
    ∀ (m : TM ℝ),
    (-Real.pi ≤ rotationNormalized m ∧ rotationNormalized m ≤ 3 * Real.pi) ∧
    ((m.a = 0 ∧ m.b = 0 ∧ m.c = 0 ∧ m.d = 0) → rotationNormalized m = 0) := by
  intro m
  have hpi := Real.pi_pos
  constructor
  · rw [rotationNormalized]
    have hT : TAU = 2 * Real.pi := rfl
    split_ifs with hab hb hcd hd
    · have h1 := Real.arccos_nonneg (m.a / m.scaleX)
      have h2 := Real.arccos_le_pi (m.a / m.scaleX)
      constructor <;> linarith
    · have h1 := Real.arccos_nonneg (m.a / m.scaleX)
      have h2 := Real.arccos_le_pi (m.a / m.scaleX)
      constructor <;> linarith
    · rw [hT]
      have h1 := Real.arccos_nonneg (-m.c / m.scaleY)
      have h2 := Real.arccos_le_pi (-m.c / m.scaleY)
      constructor <;> linarith
    · rw [hT]
      have h1 := Real.arccos_nonneg (m.c / m.scaleY)
      have h2 := Real.arccos_le_pi (m.c / m.scaleY)
      constructor <;> linarith
    · constructor <;> linarith
  · rintro ⟨ha, hb, hc, hd⟩
    rw [rotationNormalized]
    rw [if_neg (by simp [ha, hb])]
    rw [if_neg (by simp [hc, hd])]

/-- Witness for the amended C6 at the exact zero matrix. -/
theorem rotationNormalized_range_amended_witness :
    ((0 : ℝ) = 0 ∧ (0 : ℝ) = 0 ∧ (0 : ℝ) = 0 ∧ (0 : ℝ) = 0) ∧
    rotationNormalized ⟨0, 0, 0, 0, 0, 0⟩ = 0 :=
  ⟨⟨rfl, rfl, rfl, rfl⟩,
   (rotationNormalized_range_amended ⟨0, 0, 0, 0, 0, 0⟩).2 ⟨rfl, rfl, rfl, rfl⟩⟩

/-- Claim C7 is violated by the code: `decomposeMatrix()` never resets
`skewY` (source line 808 assigns `skewX = 0` a second time instead), so
in the `(a || b)` branch the returned record's `skewY` retains whatever
the previous record held; on a fresh instance (identity matrix, first
call) it is still absent (`undefined`). -/
theorem decomposeMatrix_skewY_stale :
    (∀ prev : Decomp,
      (decomposeMatrix ⟨1, 0, 0, 1, 0, 0⟩ prev).skewY = prev.skewY) ∧
    (decomposeMatrix ⟨1, 0, 0, 1, 0, 0⟩ initialDecomposed).skewY = none := by
  have key : ∀ prev : Decomp,
      (decomposeMatrix ⟨1, 0, 0, 1, 0, 0⟩ prev).skewY = prev.skewY := by
    intro prev
    rw [decomposeMatrix]
    rw [if_pos (Or.inl (by norm_num))]
  exact ⟨key, key initialDecomposed⟩

end Phaser
